import Mathlib

/-
Verification of the advanced-vector container (src/advanced-vector/vector.h).

The C++ code is shallowly embedded at the value level:

  * a `RawMemory` is a capacity together with the contents of its slots;
    a slot holds `none` while it is raw (uninitialized or destroyed) memory
    and `some x` while it holds a live element of value `x`;
  * a `Vector` is one `RawMemory` plus the live-element count `size_`;
  * the standard algorithms the source calls (`std::uninitialized_copy_n`,
    `std::uninitialized_move_n`, `std::copy`, `std::move`,
    `std::move_backward`, `std::destroy_n`, `std::destroy_at`,
    `std::uninitialized_value_construct_n`) are embedded as explicit
    left-to-right / right-to-left slot-update loops, so that aliasing
    between source and destination ranges behaves exactly as in the
    sequential C++ algorithms;
  * iterator arguments (`const_iterator pos`) are embedded as the signed
    offset `pos - begin()`, an `Int`, so that the source's range checks on
    pointers are reproduced verbatim;
  * the `if constexpr` dispatch on
    `std::is_nothrow_move_constructible_v<T> || !std::is_copy_constructible_v<T>`
    is embedded as an explicit `Bool` parameter (`um`), and at the value
    level a move transfers the same value a copy does;
  * element constructors that may throw are modelled in a second,
    exception-aware embedding (`pushBackE`, `copyLoopE`, `moveLoopE`,
    `copyAssignGrowE`): an oracle says which constructor call (counted in
    program order) throws, `Except` propagates the exception, and the
    error value records the observable state of the vector after stack
    unwinding.
-/

set_option maxHeartbeats 1000000

namespace AdvancedVector

/-- Raw storage owner (class `RawMemory` in vector.h): `capacity_` slots of
raw memory.  `mem i = some x` means slot `i` currently holds a live element
`x`; `mem i = none` means slot `i` is raw bytes. -/
structure RawMemory (α : Type) where
  cap : Nat
  mem : Nat → Option α

/-- Dynamic array (class `Vector` in vector.h): fields `data_` and `size_`. -/
structure Vector (α : Type) where
  data : RawMemory α
  size : Nat

/-- Write one slot of a buffer (the effect of one placement-new, one element
assignment, or one `destroy_at`). -/
def upd {α : Type} (f : Nat → Option α) (i : Nat) (x : Option α) : Nat → Option α :=
  fun j => if j = i then x else f j

/-- Left-to-right transfer of `n` slot values from `src` (starting at `s`)
into `dst` (starting at `d`): the value-level effect of
`std::uninitialized_copy_n`, `std::uninitialized_move_n` and `std::copy`
as the source uses them (source and destination buffers distinct). -/
def copyLoop {α : Type} (src : Nat → Option α) (s n d : Nat)
    (dst : Nat → Option α) : Nat → Option α :=
  match n with
  | 0 => dst
  | k + 1 => copyLoop src (s + 1) k (d + 1) (upd dst d (src s))

/-- Left-to-right in-buffer transfer: the value-level effect of
`std::move(first, last, d_first)` inside one buffer, reading and writing
sequentially (as `Erase` uses it, with `d ≤ first`). -/
def moveFwdLoop {α : Type} (f : Nat → Option α) (first n d : Nat) :
    Nat → Option α :=
  match n with
  | 0 => f
  | k + 1 => moveFwdLoop (upd f d (f first)) (first + 1) k (d + 1)

/-- Right-to-left in-buffer transfer: the value-level effect of
`std::move_backward(first, last, d_last)` inside one buffer (as `Emplace`
uses it, with `last ≤ d_last`); `n = last - first`. -/
def moveBwdLoop {α : Type} (f : Nat → Option α) (n last dlast : Nat) :
    Nat → Option α :=
  match n with
  | 0 => f
  | k + 1 => moveBwdLoop (upd f (dlast - 1) (f (last - 1))) k (last - 1) (dlast - 1)

/-- Destroy `n` elements starting at slot `s`: the effect of
`std::destroy_n`. -/
def destroyLoop {α : Type} (f : Nat → Option α) (s n : Nat) : Nat → Option α :=
  match n with
  | 0 => f
  | k + 1 => destroyLoop (upd f s none) (s + 1) k

/-- Default-construct `n` elements of value `d` starting at slot `s`: the
effect of `std::uninitialized_value_construct_n` for an element type whose
value-initialized value is `d`. -/
def constructLoop {α : Type} (d : α) (f : Nat → Option α) (s n : Nat) :
    Nat → Option α :=
  match n with
  | 0 => f
  | k + 1 => constructLoop d (upd f s (some d)) (s + 1) k

/-- The class invariant of `Vector` as the spec states it: the count never
exceeds the capacity, slots `[0, count)` hold live elements, and slots
`[count, capacity)` are raw memory. -/
def WF {α : Type} (v : Vector α) : Prop :=
  v.size ≤ v.data.cap ∧
  (∀ i, i < v.size → (v.data.mem i).isSome = true) ∧
  (∀ i, i < v.data.cap → v.size ≤ i → v.data.mem i = none)

instance {α : Type} [DecidableEq α] (v : Vector α) : Decidable (WF v) := by
  unfold WF
  exact inferInstance

/-- The observable contents of the first `n` slots, as a list. -/
def front {α : Type} (v : Vector α) (n : Nat) : List (Option α) :=
  (List.range n).map v.data.mem

theorem range_map_congr {β : Type} (f g : Nat → β) :
    ∀ n : Nat, (∀ i, i < n → f i = g i) →
      (List.range n).map f = (List.range n).map g := by
  intro n
  induction n with
  | zero => intro _; rfl
  | succ k ih =>
      intro h
      rw [List.range_succ, List.map_append, List.map_append,
        ih (fun i hi => h i (by omega))]
      simp [h k (by omega)]

theorem copyLoop_get {α : Type} (src : Nat → Option α) :
    ∀ (n s d : Nat) (dst : Nat → Option α) (i : Nat),
      copyLoop src s n d dst i =
        if d ≤ i ∧ i < d + n then src (s + (i - d)) else dst i := by
  intro n
  induction n with
  | zero =>
      intro s d dst i
      have h : ¬(d ≤ i ∧ i < d + 0) := by omega
      exact (if_neg h).symm
  | succ k ih =>
      intro s d dst i
      show copyLoop src (s + 1) k (d + 1) (upd dst d (src s)) i = _
      rw [ih]
      by_cases hA : d + 1 ≤ i ∧ i < d + 1 + k
      · have hB : d ≤ i ∧ i < d + (k + 1) := by omega
        rw [if_pos hA, if_pos hB]
        have e : s + 1 + (i - (d + 1)) = s + (i - d) := by omega
        rw [e]
      · rw [if_neg hA]
        by_cases hC : i = d
        · rw [hC]
          have hB : d ≤ d ∧ d < d + (k + 1) := by omega
          rw [if_pos hB]
          have e : s + (d - d) = s := by omega
          rw [e]
          simp [upd]
        · have hB : ¬(d ≤ i ∧ i < d + (k + 1)) := by omega
          rw [if_neg hB]
          simp [upd, hC]

theorem moveFwdLoop_get {α : Type} :
    ∀ (n : Nat) (f : Nat → Option α) (first d : Nat), d ≤ first →
      ∀ i, moveFwdLoop f first n d i =
        if d ≤ i ∧ i < d + n then f (first + (i - d)) else f i := by
  intro n
  induction n with
  | zero =>
      intro f first d _ i
      have h : ¬(d ≤ i ∧ i < d + 0) := by omega
      exact (if_neg h).symm
  | succ k ih =>
      intro f first d hd i
      show moveFwdLoop (upd f d (f first)) (first + 1) k (d + 1) i = _
      rw [ih (upd f d (f first)) (first + 1) (d + 1) (by omega)]
      by_cases hA : d + 1 ≤ i ∧ i < d + 1 + k
      · have hB : d ≤ i ∧ i < d + (k + 1) := by omega
        rw [if_pos hA, if_pos hB]
        have e : first + 1 + (i - (d + 1)) = first + (i - d) := by omega
        rw [e]
        have hne : first + (i - d) ≠ d := by omega
        simp [upd, hne]
      · rw [if_neg hA]
        by_cases hC : i = d
        · rw [hC]
          have hB : d ≤ d ∧ d < d + (k + 1) := by omega
          rw [if_pos hB]
          have e : first + (d - d) = first := by omega
          rw [e]
          simp [upd]
        · have hB : ¬(d ≤ i ∧ i < d + (k + 1)) := by omega
          rw [if_neg hB]
          simp [upd, hC]

theorem moveBwdLoop_get {α : Type} :
    ∀ (n : Nat) (f : Nat → Option α) (last dlast : Nat),
      last ≤ dlast → n ≤ last →
      ∀ i, moveBwdLoop f n last dlast i =
        if dlast - n ≤ i ∧ i < dlast then f (i - (dlast - last)) else f i := by
  intro n
  induction n with
  | zero =>
      intro f last dlast _ _ i
      have h : ¬(dlast - 0 ≤ i ∧ i < dlast) := by omega
      exact (if_neg h).symm
  | succ k ih =>
      intro f last dlast h1 h2 i
      show moveBwdLoop (upd f (dlast - 1) (f (last - 1))) k (last - 1) (dlast - 1) i = _
      rw [ih (upd f (dlast - 1) (f (last - 1))) (last - 1) (dlast - 1)
        (by omega) (by omega)]
      by_cases hA : dlast - 1 - k ≤ i ∧ i < dlast - 1
      · have hB : dlast - (k + 1) ≤ i ∧ i < dlast := by omega
        rw [if_pos hA, if_pos hB]
        have e : i - (dlast - 1 - (last - 1)) = i - (dlast - last) := by omega
        rw [e]
        have hne : i - (dlast - last) ≠ dlast - 1 := by omega
        simp [upd, hne]
      · rw [if_neg hA]
        by_cases hC : i = dlast - 1
        · rw [hC]
          have hB : dlast - (k + 1) ≤ dlast - 1 ∧ dlast - 1 < dlast := by omega
          rw [if_pos hB]
          have e : dlast - 1 - (dlast - last) = last - 1 := by omega
          rw [e]
          simp [upd]
        · have hB : ¬(dlast - (k + 1) ≤ i ∧ i < dlast) := by omega
          rw [if_neg hB]
          simp [upd, hC]

theorem destroyLoop_get {α : Type} :
    ∀ (n : Nat) (f : Nat → Option α) (s : Nat) (i : Nat),
      destroyLoop f s n i = if s ≤ i ∧ i < s + n then none else f i := by
  intro n
  induction n with
  | zero =>
      intro f s i
      have h : ¬(s ≤ i ∧ i < s + 0) := by omega
      exact (if_neg h).symm
  | succ k ih =>
      intro f s i
      show destroyLoop (upd f s none) (s + 1) k i = _
      rw [ih]
      by_cases hA : s + 1 ≤ i ∧ i < s + 1 + k
      · have hB : s ≤ i ∧ i < s + (k + 1) := by omega
        rw [if_pos hA, if_pos hB]
      · rw [if_neg hA]
        by_cases hC : i = s
        · subst hC
          have hB : i ≤ i ∧ i < i + (k + 1) := by omega
          rw [if_pos hB]
          simp [upd]
        · have hB : ¬(s ≤ i ∧ i < s + (k + 1)) := by omega
          rw [if_neg hB]
          simp [upd, hC]

theorem constructLoop_get {α : Type} (d : α) :
    ∀ (n : Nat) (f : Nat → Option α) (s : Nat) (i : Nat),
      constructLoop d f s n i = if s ≤ i ∧ i < s + n then some d else f i := by
  intro n
  induction n with
  | zero =>
      intro f s i
      have h : ¬(s ≤ i ∧ i < s + 0) := by omega
      exact (if_neg h).symm
  | succ k ih =>
      intro f s i
      show constructLoop d (upd f s (some d)) (s + 1) k i = _
      rw [ih]
      by_cases hA : s + 1 ≤ i ∧ i < s + 1 + k
      · have hB : s ≤ i ∧ i < s + (k + 1) := by omega
        rw [if_pos hA, if_pos hB]
      · rw [if_neg hA]
        by_cases hC : i = s
        · subst hC
          have hB : i ≤ i ∧ i < i + (k + 1) := by omega
          rw [if_pos hB]
          simp [upd]
        · have hB : ¬(s ≤ i ∧ i < s + (k + 1)) := by omega
          rw [if_neg hB]
          simp [upd, hC]

/-- Vector::Reserve (vector.h:128-140).  If the requested capacity is not
larger than the current one, no-op; otherwise allocate new storage of
exactly `newCap` slots, transfer all `size_` live elements into it (both
`if constexpr` branches transfer the same values in the same order at the
value level), swap the storages and destroy the elements left in the old
one, which is then discarded. -/
def reserve {α : Type} (v : Vector α) (newCap : Nat) : Vector α :=
  if newCap ≤ v.data.cap then v
  else
    { data := ⟨newCap, copyLoop v.data.mem 0 v.size 0 (fun _ => none)⟩,
      size := v.size }

/-- Vector::Resize (vector.h:142-149).  If shrinking, destroy the trailing
`size_ - new_size` elements; if growing, first `Reserve(max(cap * 2,
new_size))` when the capacity is insufficient, then value-construct the new
trailing elements (their value-initialized value is `d`); finally set
`size_ = new_size`. -/
def resize {α : Type} (d : α) (v : Vector α) (n : Nat) : Vector α :=
  let v1 := if n < v.size then
      { v with data := ⟨v.data.cap, destroyLoop v.data.mem n (v.size - n)⟩ }
    else v
  let v2 := if v1.size < n then
      let v3 := if v1.data.cap < n then reserve v1 (max (v1.data.cap * 2) n) else v1
      { v3 with data := ⟨v3.data.cap, constructLoop d v3.data.mem v3.size (n - v3.size)⟩ }
    else v1
  { v2 with size := n }

/-- Vector::PushBack (vector.h:156-174) and Vector::EmplaceBack
(vector.h:176-195), which perform the same storage manipulation: if a spare
slot exists, construct the new element at slot `size_`; otherwise allocate
`size_ == 0 ? 1 : size_ * 2` slots, construct the new element at slot
`size_` of the new storage first, transfer the `size_` old elements
(move or copy — same values at the value level), destroy the old elements
and swap storages; then increment `size_`. -/
def pushBack {α : Type} (v : Vector α) (x : α) : Vector α :=
  if v.size < v.data.cap then
    { data := ⟨v.data.cap, upd v.data.mem v.size (some x)⟩, size := v.size + 1 }
  else
    { data := ⟨(if v.size = 0 then 1 else v.size * 2),
        copyLoop v.data.mem 0 v.size 0 (upd (fun _ => none) v.size (some x))⟩,
      size := v.size + 1 }

/-- Vector::PopBack (vector.h:151-154): destroy the element at slot
`size_ - 1` and decrement `size_` (the source asserts `size_ != 0`). -/
def popBack {α : Type} (v : Vector α) : Vector α :=
  { data := ⟨v.data.cap, upd v.data.mem (v.size - 1) none⟩, size := v.size - 1 }

/-- Vector::Emplace (vector.h:197-225); Vector::Insert (vector.h:236-242)
forwards to it.  The position is the signed offset `pos - begin()`.  The
guard is the source's literal check `pos < begin() && pos > end()`.
`um` is the compile-time trait
`is_nothrow_move_constructible_v<T> || !is_copy_constructible_v<T>`:
`true` selects the `uninitialized_move_n` branch (prefix length `new_pos`),
`false` the `uninitialized_copy_n` branch (prefix length `new_pos - 1`,
exactly as written in the source).  With spare capacity the temporary `t`
is built, the last element is placement-new'ed into slot `size_`, the range
`[new_pos, size_-1)` is shifted right via `move_backward`, and `t` is
assigned into slot `new_pos`.  Returns the new state and 'new_pos'
(`none` models returning `nullptr`). -/
def emplace {α : Type} (um : Bool) (v : Vector α) (pos : Int) (x : α) :
    Option (Vector α × Nat) :=
  if pos < 0 ∧ pos > (v.size : Int) then none
  else
    let p := pos.toNat
    if v.size < v.data.cap then
      let m1 := if pos = (v.size : Int) then v.data.mem
        else moveBwdLoop (upd v.data.mem v.size (v.data.mem (v.size - 1)))
              (v.size - 1 - p) (v.size - 1) v.size
      some ({ data := ⟨v.data.cap, upd m1 p (some x)⟩, size := v.size + 1 }, p)
    else
      let m0 := upd (fun _ => none) p (some x)
      let m1 := if um then copyLoop v.data.mem 0 p 0 m0
                else copyLoop v.data.mem 0 (p - 1) 0 m0
      some ({ data := ⟨(if v.size = 0 then 1 else v.size * 2),
                copyLoop v.data.mem p (v.size - p) (p + 1) m1⟩,
              size := v.size + 1 }, p)

/-- Vector::Erase (vector.h:227-234).  The guard is the source's literal
check `pos < begin() && pos >= end()`.  Shift `[new_pos+1, size_)` one slot
left via `std::move`, destroy the vacated slot `size_ - 1`, decrement
`size_`, return `new_pos`. -/
def erase {α : Type} (v : Vector α) (pos : Int) : Option (Vector α × Nat) :=
  if pos < 0 ∧ pos ≥ (v.size : Int) then none
  else
    let p := pos.toNat
    some ({ data := ⟨v.data.cap,
              upd (moveFwdLoop v.data.mem (p + 1) (v.size - (p + 1)) p)
                (v.size - 1) none⟩,
            size := v.size - 1 }, p)

/-- Vector::operator= (copy, vector.h:82-100).  `same` models the pointer
identity test `this == &other`.  If the source count fits the current
capacity: overwrite the overlapping range via `std::copy` (element
assignment) and either copy-construct the extra tail from the source or
destroy this array's extra tail; otherwise build `Vector other_copy(other)`
(capacity and count `other.size_`, elements deep-copied) and swap with it. -/
def copyAssign {α : Type} (same : Bool) (a b : Vector α) : Vector α :=
  if same then a
  else if b.size ≤ a.data.cap then
    if a.size ≤ b.size then
      { data := ⟨a.data.cap,
          copyLoop b.data.mem a.size (b.size - a.size) a.size
            (copyLoop b.data.mem 0 a.size 0 a.data.mem)⟩,
        size := b.size }
    else
      { data := ⟨a.data.cap,
          destroyLoop (copyLoop b.data.mem 0 b.size 0 a.data.mem) b.size
            (a.size - b.size)⟩,
        size := b.size }
  else
    { data := ⟨b.size, copyLoop b.data.mem 0 b.size 0 (fun _ => none)⟩,
      size := b.size }

/-- Vector::Swap (vector.h:245-247): member-wise exchange of `data_`
(buffer and capacity) and `size_` between two distinct vectors; the result
pair is (new state of `this`, new state of `other`). -/
def swapVec {α : Type} (a b : Vector α) : Vector α × Vector α :=
  ({ data := b.data, size := b.size }, { data := a.data, size := a.size })

/-- Vector::operator= (move, vector.h:102-105): `Swap(other)`. -/
def moveAssign {α : Type} (a b : Vector α) : Vector α × Vector α :=
  swapVec a b

/-- Vector::operator= (move) applied to the vector itself:
`Swap(other)` where `other` aliases `this`, so each member-wise
`std::swap(x, x)` leaves the member as it was. -/
def moveAssignSelf {α : Type} (v : Vector α) : Vector α :=
  { data := v.data, size := v.size }

/-- Vector::Insert(pos, v[i]) where the value argument is a reference into
the vector's own storage (vector.h:236-238 binding `const T& value`, then
Emplace at vector.h:197-225).  The embedding dereferences the argument at
the exact program points where the source constructs from it: `T t(value)`
in the spare-capacity path (before any shifting), and the placement-new
into the fresh storage in the reallocating path (before any transfer). -/
def emplaceSelf {α : Type} (um : Bool) (v : Vector α) (pos : Int) (i : Nat) :
    Option (Vector α × Nat) :=
  if pos < 0 ∧ pos > (v.size : Int) then none
  else
    let p := pos.toNat
    if v.size < v.data.cap then
      let t := v.data.mem i
      let m1 := if pos = (v.size : Int) then v.data.mem
        else moveBwdLoop (upd v.data.mem v.size (v.data.mem (v.size - 1)))
              (v.size - 1 - p) (v.size - 1) v.size
      some ({ data := ⟨v.data.cap, upd m1 p t⟩, size := v.size + 1 }, p)
    else
      let m0 := upd (fun _ => none) p (v.data.mem i)
      let m1 := if um then copyLoop v.data.mem 0 p 0 m0
                else copyLoop v.data.mem 0 (p - 1) 0 m0
      some ({ data := ⟨(if v.size = 0 then 1 else v.size * 2),
                copyLoop v.data.mem p (v.size - p) (p + 1) m1⟩,
              size := v.size + 1 }, p)

/-- Compile-time properties of the element type that vector.h dispatches
on: `std::is_nothrow_move_constructible_v<T>` and
`std::is_copy_constructible_v<T>`. -/
structure Traits where
  nothrowMove : Bool
  copyable : Bool

/-- Exception-aware `std::uninitialized_copy_n`: constructor call number
`base + k` copies the k-th element and throws iff the oracle says so; on a
throw the partially filled destination is destroyed and deallocated during
unwinding, and the source is untouched, so the error carries no state. -/
def copyLoopE {α : Type} (oracle : Nat → Bool) (src : Nat → Option α)
    (base s n d : Nat) (dst : Nat → Option α) :
    Except Unit (Nat → Option α) :=
  match n with
  | 0 => .ok dst
  | k + 1 =>
    if oracle base then .error ()
    else copyLoopE oracle src (base + 1) (s + 1) k (d + 1) (upd dst d (src s))

/-- Exception-aware `std::uninitialized_move_n`: a move constructor can
throw only when the type's move constructor is not `noexcept`; each
successful move leaves the source element in a moved-from state (modelled
by the value `moved`).  On a throw the destination is destroyed and
deallocated during unwinding, and the error carries the damaged source
buffer (sources already moved from stay moved-from). -/
def moveLoopE {α : Type} (tr : Traits) (oracle : Nat → Bool) (moved : α)
    (src : Nat → Option α) (base s n d : Nat) (dst : Nat → Option α) :
    Except (Nat → Option α) (Nat → Option α) :=
  match n with
  | 0 => .ok dst
  | k + 1 =>
    if !tr.nothrowMove && oracle base then .error src
    else moveLoopE tr oracle moved (upd src s (some moved)) (base + 1) (s + 1)
      k (d + 1) (upd dst d (src s))

/-- Exception-aware Vector::PushBack / Vector::EmplaceBack
(vector.h:156-195).  Constructor calls are counted in program order: call 0
constructs the new element (in place with spare capacity, in the fresh
storage when growing), calls 1..size_ transfer the old elements in the
growth path.  The `if constexpr` trait test selects moving or copying.  On
an exception the result is `.error s` where `s` is the observable vector
state after unwinding (the fresh storage is destroyed and freed; `data_`
and `size_` are unchanged since the swap was never reached). -/
def pushBackE {α : Type} (tr : Traits) (oracle : Nat → Bool) (moved : α)
    (v : Vector α) (x : α) : Except (Vector α) (Vector α) :=
  if v.size < v.data.cap then
    if oracle 0 then .error v
    else .ok { data := ⟨v.data.cap, upd v.data.mem v.size (some x)⟩,
               size := v.size + 1 }
  else
    if oracle 0 then .error v
    else
      if tr.nothrowMove || !tr.copyable then
        match moveLoopE tr oracle moved v.data.mem 1 0 v.size 0
            (upd (fun _ => none) v.size (some x)) with
        | .error s => .error { data := ⟨v.data.cap, s⟩, size := v.size }
        | .ok m1 => .ok { data := ⟨(if v.size = 0 then 1 else v.size * 2), m1⟩,
                          size := v.size + 1 }
      else
        match copyLoopE oracle v.data.mem 1 0 v.size 0
            (upd (fun _ => none) v.size (some x)) with
        | .error _ => .error v
        | .ok m1 => .ok { data := ⟨(if v.size = 0 then 1 else v.size * 2), m1⟩,
                          size := v.size + 1 }

/-- Exception-aware reallocating branch of the copy assignment
(vector.h:95-98): `Vector other_copy(other); Swap(other_copy);`.  The copy
constructor performs `uninitialized_copy_n` of all of `other`'s elements
into fresh storage; if any element copy throws, the exception propagates
before `Swap` runs, so `this` (`a`) is untouched. -/
def copyAssignGrowE {α : Type} (oracle : Nat → Bool) (a b : Vector α) :
    Except (Vector α) (Vector α) :=
  match copyLoopE oracle b.data.mem 0 0 b.size 0 (fun _ => none) with
  | .error _ => .error a
  | .ok m => .ok { data := ⟨b.size, m⟩, size := b.size }

/-- Observable element of an error state, for stating failure behaviour. -/
def errElem {α : Type} (r : Except (Vector α) (Vector α)) (i : Nat) :
    Option α :=
  match r with
  | .error e => e.data.mem i
  | .ok _ => none

/-- The result of a position-based operation has its count within its
capacity. -/
def okCapGeSize {α : Type} (o : Option (Vector α × Nat)) : Prop :=
  match o with
  | some r => r.1.size ≤ r.1.data.cap
  | none => False

theorem upd_eq {α : Type} (f : Nat → Option α) (j : Nat) (x : Option α)
    (i : Nat) (h : i = j) : upd f j x i = x := by
  simp [upd, h]

theorem upd_ne {α : Type} (f : Nat → Option α) (j : Nat) (x : Option α)
    (i : Nat) (h : ¬i = j) : upd f j x i = f i := by
  simp [upd, h]

theorem vecPair_ext {α : Type} {c1 c2 : Nat} {f g : Nat → Option α}
    {s1 s2 p1 p2 : Nat} (hc : c1 = c2) (hs : s1 = s2) (hp : p1 = p2)
    (hf : ∀ i, f i = g i) :
    (some (⟨⟨c1, f⟩, s1⟩, p1) : Option (Vector α × Nat)) =
      some (⟨⟨c2, g⟩, s2⟩, p2) := by
  subst hc
  subst hs
  subst hp
  rw [funext hf]

/-- Effect of Vector::Emplace at a valid position when a spare slot exists:
the prefix is untouched, the new element sits at `p`, the old elements from
`p` on are shifted one slot right. -/
theorem emplace_spare {α : Type} (um : Bool) (v : Vector α) (p : Nat) (x : α)
    (hp : p ≤ v.size) (hc : v.size < v.data.cap) :
    emplace um v (p : Int) x =
      some ({ data := ⟨v.data.cap, fun i =>
                if i = p then some x
                else if p < i ∧ i ≤ v.size then v.data.mem (i - 1)
                else v.data.mem i⟩,
              size := v.size + 1 }, p) := by
  have hg : ¬((p : Int) < 0 ∧ (p : Int) > (v.size : Int)) := by
    intro h
    have h1 := h.1
    omega
  by_cases he : p = v.size
  · subst he
    simp only [emplace, if_neg hg, Int.toNat_natCast, if_pos hc, if_pos rfl,
      ite_true]
    apply vecPair_ext rfl rfl rfl
    intro i
    by_cases h1 : i = v.size
    · rw [upd_eq _ _ _ _ h1, if_pos h1]
    · rw [upd_ne _ _ _ _ h1, if_neg h1]
      have h2 : ¬(v.size < i ∧ i ≤ v.size) := by omega
      rw [if_neg h2]
  · have hps : p < v.size := by omega
    have hne : ¬((p : Int) = (v.size : Int)) := by
      intro h
      exact he (by exact_mod_cast h)
    simp only [emplace, if_neg hg, Int.toNat_natCast, if_pos hc, if_neg hne]
    apply vecPair_ext rfl rfl rfl
    intro i
    by_cases h1 : i = p
    · rw [upd_eq _ _ _ _ h1, if_pos h1]
    · rw [upd_ne _ _ _ _ h1, if_neg h1]
      rw [moveBwdLoop_get (v.size - 1 - p) _ (v.size - 1) v.size (by omega) (by omega)]
      by_cases h2 : v.size - (v.size - 1 - p) ≤ i ∧ i < v.size
      · have h2' : p < i ∧ i ≤ v.size := by omega
        rw [if_pos h2, if_pos h2']
        have e : i - (v.size - (v.size - 1)) = i - 1 := by omega
        rw [e]
        exact upd_ne _ _ _ _ (by omega)
      · rw [if_neg h2]
        by_cases h3 : i = v.size
        · have h4 : p < i ∧ i ≤ v.size := by omega
          rw [if_pos h4, upd_eq _ _ _ _ h3]
          have e : i - 1 = v.size - 1 := by omega
          rw [e]
        · have h4 : ¬(p < i ∧ i ≤ v.size) := by omega
          rw [if_neg h4]
          exact upd_ne _ _ _ _ h3

/-- Effect of Vector::Erase at a valid position: the prefix is untouched,
the elements after `p` are shifted one slot left, slot `size_ - 1` is
destroyed. -/
theorem erase_valid {α : Type} (v : Vector α) (p : Nat) (hp : p < v.size) :
    erase v (p : Int) =
      some ({ data := ⟨v.data.cap, fun i =>
                if p ≤ i ∧ i < v.size - 1 then v.data.mem (i + 1)
                else if i = v.size - 1 then none
                else v.data.mem i⟩,
              size := v.size - 1 }, p) := by
  have hg : ¬((p : Int) < 0 ∧ (p : Int) ≥ (v.size : Int)) := by
    intro h
    have h1 := h.1
    omega
  simp only [erase, if_neg hg, Int.toNat_natCast]
  apply vecPair_ext rfl rfl rfl
  intro i
  by_cases h1 : i = v.size - 1
  · rw [upd_eq _ _ _ _ h1]
    have h2 : ¬(p ≤ i ∧ i < v.size - 1) := by omega
    rw [if_neg h2, if_pos h1]
  · rw [upd_ne _ _ _ _ h1]
    rw [moveFwdLoop_get (v.size - (p + 1)) v.data.mem (p + 1) p (by omega)]
    by_cases h2 : p ≤ i ∧ i < v.size - 1
    · have h2' : p ≤ i ∧ i < p + (v.size - (p + 1)) := by omega
      rw [if_pos h2', if_pos h2]
      have e : p + 1 + (i - p) = i + 1 := by omega
      rw [e]
    · have h2' : ¬(p ≤ i ∧ i < p + (v.size - (p + 1))) := by omega
      rw [if_neg h2', if_neg h2, if_neg h1]

/-- C6: for every pair of vectors `a` and `b`, copy assignment `a = b`
follows the specified algorithm — when `b`'s count fits `a`'s capacity the
overlapping range is overwritten and the tail copy-constructed (`b` longer)
or destroyed (`b` shorter) with the count set to `b`'s count, and when it
exceeds `a`'s capacity a full temporary copy of `b` is built and swapped
in; in all cases `a` ends equal element-for-element to `b`, and if copying
`b` fails in the exceeds-capacity branch, `a` is left completely
unchanged. -/
theorem c6_copy_assignment {α : Type} (a b : Vector α) (oracle : Nat → Bool) :
    (copyAssign false a b).size = b.size ∧
    front (copyAssign false a b) b.size = front b b.size ∧
    ((copyAssignGrowE oracle a b).isOk = true ∨
      copyAssignGrowE oracle a b = .error a) := by
  refine ⟨?_, ?_, ?_⟩
  · unfold copyAssign
    simp only [Bool.false_eq_true, if_false]
    split
    · split <;> rfl
    · rfl
  · apply range_map_congr
    intro i hi
    unfold copyAssign
    simp only [Bool.false_eq_true, if_false]
    by_cases hcap : b.size ≤ a.data.cap
    · rw [if_pos hcap]
      by_cases hfit : a.size ≤ b.size
      · rw [if_pos hfit]
        show copyLoop b.data.mem a.size (b.size - a.size) a.size
            (copyLoop b.data.mem 0 a.size 0 a.data.mem) i = b.data.mem i
        rw [copyLoop_get, copyLoop_get]
        by_cases h1 : a.size ≤ i ∧ i < a.size + (b.size - a.size)
        · rw [if_pos h1]
          have e : a.size + (i - a.size) = i := by omega
          rw [e]
        · rw [if_neg h1]
          have h2 : 0 ≤ i ∧ i < 0 + a.size := by omega
          rw [if_pos h2]
          have e : 0 + (i - 0) = i := by omega
          rw [e]
      · rw [if_neg hfit]
        show destroyLoop (copyLoop b.data.mem 0 b.size 0 a.data.mem) b.size
            (a.size - b.size) i = b.data.mem i
        rw [destroyLoop_get]
        have h1 : ¬(b.size ≤ i ∧ i < b.size + (a.size - b.size)) := by omega
        rw [if_neg h1, copyLoop_get]
        have h2 : 0 ≤ i ∧ i < 0 + b.size := by omega
        rw [if_pos h2]
        have e : 0 + (i - 0) = i := by omega
        rw [e]
    · rw [if_neg hcap]
      show copyLoop b.data.mem 0 b.size 0 (fun _ => none) i = b.data.mem i
      rw [copyLoop_get]
      have h2 : 0 ≤ i ∧ i < 0 + b.size := by omega
      rw [if_pos h2]
      have e : 0 + (i - 0) = i := by omega
      rw [e]
  · unfold copyAssignGrowE
    rcases h : copyLoopE oracle b.data.mem 0 0 b.size 0 (fun _ => none)
      with e | m
    · right
      rfl
    · left
      rfl

/-- C7: move assignment `a = std::move(b)` is `Swap(other)`: afterwards `a`
holds `b`'s former elements, size and capacity, and `b` holds `a`'s former
elements, size and capacity (swap semantics, not "source becomes empty"). -/
theorem c7_move_assignment_swaps {α : Type} (a b : Vector α) :
    moveAssign a b = (b, a) ∧
    (moveAssign a b).1.size = b.size ∧
    (moveAssign a b).1.data.cap = b.data.cap ∧
    front (moveAssign a b).1 b.data.cap = front b b.data.cap ∧
    (moveAssign a b).2.size = a.size ∧
    (moveAssign a b).2.data.cap = a.data.cap ∧
    front (moveAssign a b).2 a.data.cap = front a a.data.cap :=
  ⟨rfl, rfl, rfl, rfl, rfl, rfl, rfl⟩

/-- C10: self-assignment is an identity: copy assignment of a vector to
itself (the source's `this == &other` early return) and move assignment of
a vector to itself (`Swap` with itself, member-wise `std::swap(x, x)`) both
leave size, capacity and elements unchanged. -/
theorem c10_self_assignment_identity {α : Type} (v : Vector α) :
    copyAssign true v v = v ∧ moveAssignSelf v = v ∧
    (copyAssign true v v).size = v.size ∧
    (copyAssign true v v).data.cap = v.data.cap ∧
    front (moveAssignSelf v) v.data.cap = front v v.data.cap :=
  ⟨rfl, rfl, rfl, rfl, rfl⟩

/-- C8: for every non-empty vector and valid position `p` in `[begin, end)`,
`Erase(p)` followed immediately by `Insert(p, v)` with `v` the value that
was at `p` before the erase restores the original sequence: original
length, original elements in the original order (and the capacity is
unchanged as well). -/
theorem c8_erase_insert_roundtrip {α : Type} (um : Bool) (v : Vector α)
    (p : Nat) (x : α) (hwf : WF v) (hp : p < v.size)
    (hx : v.data.mem p = some x) :
    ((erase v (p : Int)).bind fun r => emplace um r.1 (p : Int) x).map
        (fun r => (r.1.size, r.1.data.cap, front r.1 v.data.cap)) =
      some (v.size, v.data.cap, front v v.data.cap) := by
  rw [erase_valid v p hp]
  have hstep := emplace_spare um
    ⟨⟨v.data.cap, fun i =>
        if p ≤ i ∧ i < v.size - 1 then v.data.mem (i + 1)
        else if i = v.size - 1 then none
        else v.data.mem i⟩, v.size - 1⟩ p x
    (by show p ≤ v.size - 1; omega)
    (by show v.size - 1 < v.data.cap; have := hwf.1; omega)
  simp only [Option.some_bind, hstep, Option.map_some']
  refine congrArg some ?_
  dsimp only
  have e1 : v.size - 1 + 1 = v.size := by omega
  rw [e1]
  refine congrArg (Prod.mk v.size) (congrArg (Prod.mk v.data.cap) ?_)
  apply range_map_congr
  intro i hi
  dsimp only
  by_cases h1 : i = p
  · rw [if_pos h1, h1, hx]
  · rw [if_neg h1]
    by_cases h2 : p < i ∧ i ≤ v.size - 1
    · rw [if_pos h2]
      have h3 : p ≤ i - 1 ∧ i - 1 < v.size - 1 := by omega
      rw [if_pos h3]
      have e2 : i - 1 + 1 = i := by omega
      rw [e2]
    · rw [if_neg h2]
      have h3 : ¬(p ≤ i ∧ i < v.size - 1) := by omega
      rw [if_neg h3]
      have h4 : ¬(i = v.size - 1) := by omega
      rw [if_neg h4]

/-- C9: inserting a reference to the vector's own element,
`Insert(pos, v[i])`, inserts the pre-call value of `v[i]`: the element
found at the returned position equals the value slot `i` held before the
call, because `Emplace` materializes the new element (into the temporary
`t` in the spare-capacity path, directly into the fresh storage in the
reallocating path) before any existing element is shifted or relocated. -/
theorem c9_self_referential_insert {α : Type} (um : Bool) (v : Vector α)
    (pos : Int) (i : Nat) (hwf : WF v) (hi : i < v.size)
    (h0 : 0 ≤ pos) (h1 : pos ≤ (v.size : Int)) :
    (emplaceSelf um v pos i).map (fun r => r.1.data.mem r.2) =
      some (v.data.mem i) := by
  have hg : ¬(pos < 0 ∧ pos > (v.size : Int)) := by omega
  unfold emplaceSelf
  rw [if_neg hg]
  dsimp only
  by_cases hc : v.size < v.data.cap
  · rw [if_pos hc]
    dsimp only [Option.map_some']
    rw [upd_eq _ _ _ _ rfl]
  · rw [if_neg hc]
    dsimp only [Option.map_some']
    rw [copyLoop_get]
    have hA : ¬(pos.toNat + 1 ≤ pos.toNat ∧
        pos.toNat < pos.toNat + 1 + (v.size - pos.toNat)) := by omega
    rw [if_neg hA]
    by_cases hum : um = true
    · rw [if_pos hum, copyLoop_get]
      have hB : ¬(0 ≤ pos.toNat ∧ pos.toNat < 0 + pos.toNat) := by omega
      rw [if_neg hB, upd_eq _ _ _ _ rfl]
    · rw [if_neg hum, copyLoop_get]
      have hB : ¬(0 ≤ pos.toNat ∧ pos.toNat < 0 + (pos.toNat - 1)) := by omega
      rw [if_neg hB, upd_eq _ _ _ _ rfl]

theorem reserve_cap {α : Type} (v : Vector α) (k : Nat) :
    (reserve v k).data.cap = max v.data.cap k := by
  unfold reserve
  by_cases h : k ≤ v.data.cap
  · rw [if_pos h]
    have e : max v.data.cap k = v.data.cap := by omega
    rw [e]
  · rw [if_neg h]
    show k = max v.data.cap k
    omega

theorem reserve_size {α : Type} (v : Vector α) (k : Nat) :
    (reserve v k).size = v.size := by
  unfold reserve
  by_cases h : k ≤ v.data.cap
  · rw [if_pos h]
  · rw [if_neg h]

theorem resize_size {α : Type} (d : α) (w : Vector α) (m : Nat) :
    (resize d w m).size = m := rfl

theorem resize_grow_cap {α : Type} (d : α) (w : Vector α) (m : Nat)
    (hm : w.size < m) (hmc : w.data.cap < m) :
    (resize d w m).data.cap = max (2 * w.data.cap) m := by
  unfold resize
  dsimp only
  rw [if_neg (by omega : ¬(m < w.size)), if_pos hm, if_pos hmc]
  show (reserve w (max (w.data.cap * 2) m)).data.cap = max (2 * w.data.cap) m
  rw [reserve_cap]
  omega

/-- C5: whenever an operation grows the storage, the new capacity is
`max(1, 2 x previous capacity)` for PushBack/EmplaceBack/Insert/Emplace
(the source allocates `size_ == 0 ? 1 : size_ * 2` slots, and growth
happens exactly when `size_` has reached the capacity), the exact value
requested for Reserve, and `max(2 x previous capacity, n)` for Resize; and
after each of these operations the capacity is at least `Size()`. -/
theorem c5_growth_policy {α : Type} (v w : Vector α) (x y d : α)
    (n m : Nat) (pos pos2 : Int) (um : Bool)
    (hv : v.size = v.data.cap)
    (hw : w.size ≤ w.data.cap)
    (hn : w.data.cap < n)
    (hm : w.size < m) (hmc : w.data.cap < m)
    (hpos0 : 0 ≤ pos) (hpos1 : pos ≤ (v.size : Int))
    (hpos20 : 0 ≤ pos2) (hpos21 : pos2 ≤ (w.size : Int)) :
    (pushBack v x).data.cap = max 1 (2 * v.data.cap) ∧
    (emplace um v pos x).map (fun r => r.1.data.cap) =
      some (max 1 (2 * v.data.cap)) ∧
    (reserve w n).data.cap = n ∧
    (resize d w m).data.cap = max (2 * w.data.cap) m ∧
    (pushBack w y).size ≤ (pushBack w y).data.cap ∧
    okCapGeSize (emplace um w pos2 y) ∧
    (reserve w n).size ≤ (reserve w n).data.cap ∧
    (resize d w m).size ≤ (resize d w m).data.cap := by
  refine ⟨?_, ?_, ?_, ?_, ?_, ?_, ?_, ?_⟩
  · unfold pushBack
    rw [if_neg (by omega : ¬(v.size < v.data.cap))]
    show (if v.size = 0 then 1 else v.size * 2) = max 1 (2 * v.data.cap)
    by_cases h0 : v.size = 0
    · rw [if_pos h0]
      omega
    · rw [if_neg h0]
      omega
  · have hg : ¬(pos < 0 ∧ pos > (v.size : Int)) := by omega
    unfold emplace
    rw [if_neg hg]
    dsimp only
    rw [if_neg (by omega : ¬(v.size < v.data.cap))]
    dsimp only [Option.map_some']
    refine congrArg some ?_
    by_cases h0 : v.size = 0
    · rw [if_pos h0]
      omega
    · rw [if_neg h0]
      omega
  · rw [reserve_cap]
    omega
  · exact resize_grow_cap d w m hm hmc
  · unfold pushBack
    by_cases h : w.size < w.data.cap
    · rw [if_pos h]
      show w.size + 1 ≤ w.data.cap
      omega
    · rw [if_neg h]
      show w.size + 1 ≤ (if w.size = 0 then 1 else w.size * 2)
      by_cases h0 : w.size = 0
      · rw [if_pos h0]
        omega
      · rw [if_neg h0]
        omega
  · have hg : ¬(pos2 < 0 ∧ pos2 > (w.size : Int)) := by omega
    unfold emplace
    rw [if_neg hg]
    dsimp only
    by_cases hc : w.size < w.data.cap
    · rw [if_pos hc]
      show w.size + 1 ≤ w.data.cap
      omega
    · rw [if_neg hc]
      show w.size + 1 ≤ (if w.size = 0 then 1 else w.size * 2)
      by_cases h0 : w.size = 0
      · rw [if_pos h0]
        omega
      · rw [if_neg h0]
        omega
  · rw [reserve_size, reserve_cap]
    omega
  · rw [resize_size, resize_grow_cap d w m hm hmc]
    omega

theorem moveLoopE_ok {α : Type} (tr : Traits) (h : tr.nothrowMove = true)
    (oracle : Nat → Bool) (moved : α) :
    ∀ (n : Nat) (src : Nat → Option α) (base s d : Nat)
      (dst : Nat → Option α),
      ∃ r, moveLoopE tr oracle moved src base s n d dst = .ok r := by
  intro n
  induction n with
  | zero =>
      intro src base s d dst
      exact ⟨dst, rfl⟩
  | succ k ih =>
      intro src base s d dst
      have e : moveLoopE tr oracle moved src base s (k + 1) d dst =
          moveLoopE tr oracle moved (upd src s (some moved)) (base + 1)
            (s + 1) k (d + 1) (upd dst d (src s)) := by
        show (if !tr.nothrowMove && oracle base then Except.error src
          else moveLoopE tr oracle moved (upd src s (some moved)) (base + 1)
            (s + 1) k (d + 1) (upd dst d (src s))) = _
        rw [h]
        simp
      rw [e]
      exact ih _ _ _ _ _

/-- C1 (amended): for every vector and element value, provided the element
type is copy-constructible or its move constructor cannot throw, if an
element constructor fails during PushBack/EmplaceBack then `Size()` and
every existing element are identical to their pre-call values — the new
element is constructed in the new storage before any old element is
transferred or destroyed, and a failing transfer runs in the copying
branch, which leaves the old elements intact.  (Without the proviso the
claim fails: a move-only element type whose move constructor throws is
transferred by `uninitialized_move_n`, and a throw mid-transfer leaves
already-moved-from elements behind — see the counterexample.) -/
theorem c1_push_back_strong_safety {α : Type} (tr : Traits)
    (oracle : Nat → Bool) (moved : α) (v : Vector α) (x : α)
    (h : tr.copyable = true ∨ tr.nothrowMove = true) :
    (pushBackE tr oracle moved v x).isOk = true ∨
      pushBackE tr oracle moved v x = .error v := by
  unfold pushBackE
  by_cases hc : v.size < v.data.cap
  · rw [if_pos hc]
    by_cases ho : oracle 0 = true
    · rw [if_pos ho]
      right
      rfl
    · rw [if_neg ho]
      left
      rfl
  · rw [if_neg hc]
    by_cases ho : oracle 0 = true
    · rw [if_pos ho]
      right
      rfl
    · rw [if_neg ho]
      by_cases hb : (tr.nothrowMove || !tr.copyable) = true
      · rw [if_pos hb]
        cases hnm : tr.nothrowMove with
        | false =>
            exfalso
            have hcop : tr.copyable = true := by
              rcases h with hc2 | hn2
              · exact hc2
              · rw [hnm] at hn2
                exact absurd hn2 (by decide)
            rw [hnm, hcop] at hb
            exact absurd hb (by decide)
        | true =>
            obtain ⟨r, hr⟩ := moveLoopE_ok tr hnm oracle moved v.size
              v.data.mem 1 0 0 (upd (fun _ => none) v.size (some x))
            rw [hr]
            left
            rfl
      · rw [if_neg hb]
        cases hcl : copyLoopE oracle v.data.mem 1 0 v.size 0
            (upd (fun _ => none) v.size (some x)) with
        | error u =>
            right
            rfl
        | ok m1 =>
            left
            rfl

/-- Concrete vector [10, 20] with size = capacity = 2, used as the failing
input for the C1 counterexample. -/
def vC1 : Vector Nat :=
  ⟨⟨2, fun i => if i = 0 then some 10 else if i = 1 then some 20 else none⟩, 2⟩

/-- Extract the count recorded in an error state. -/
def errSize {α : Type} (r : Except (Vector α) (Vector α)) : Nat :=
  match r with
  | .error e => e.size
  | .ok _ => 0

/-- C1 as stated is false on the code: for a move-only element type whose
move constructor throws (`Traits` nothrowMove = false, copyable = false),
growth-triggered PushBack on [10, 20] transfers by `uninitialized_move_n`;
when the second move throws (oracle fires on constructor call 2), the
exception propagates with element 0 already moved-from (value 99 instead of
10), so an existing element is not identical to its pre-call value even
though `Size()` still is. -/
theorem c1_move_only_counterexample :
    (pushBackE ⟨false, false⟩ (fun k => k == 2) 99 vC1 30).isOk = false ∧
    errElem (pushBackE ⟨false, false⟩ (fun k => k == 2) 99 vC1 30) 0 = some 99 ∧
    vC1.data.mem 0 = some 10 ∧
    errSize (pushBackE ⟨false, false⟩ (fun k => k == 2) 99 vC1 30) = 2 := by
  decide

/-- Witness input for the amended C1 theorem: [7] at capacity 1, a
copyable element type, an oracle that makes the very first constructor
call throw. -/
def vW1 : Vector Nat := ⟨⟨1, fun i => if i = 0 then some 7 else none⟩, 1⟩

theorem c1_push_back_strong_safety_witness :
    ((⟨true, true⟩ : Traits).copyable = true ∨
      (⟨true, true⟩ : Traits).nothrowMove = true) ∧
    ((pushBackE ⟨true, true⟩ (fun _ => true) 0 vW1 5).isOk = true ∨
      pushBackE ⟨true, true⟩ (fun _ => true) 0 vW1 5 = .error vW1) :=
  ⟨Or.inl rfl,
    c1_push_back_strong_safety ⟨true, true⟩ (fun _ => true) 0 vW1 5 (Or.inl rfl)⟩

/-- Concrete vector [10, 20] with size = capacity = 2: the failing input
for C2. -/
def vC2 : Vector Nat :=
  ⟨⟨2, fun i => if i = 0 then some 10 else if i = 1 then some 20 else none⟩, 2⟩

/-- C2 is false on the code and the code contradicts the spec's stated
intent: the guards `pos < begin() && pos > end()` (Emplace) and
`pos < begin() && pos >= end()` (Erase) use `&&` where the intent requires
`||`, so they are unsatisfiable and no out-of-range position is ever
rejected.  `Erase(end())` on [10, 20] — position 2, outside the valid range
[begin, end) — returns a non-null iterator and mutates the vector
(destroys element 20, decrements the size to 1), and
`Emplace(begin() + 3, 99)` — outside [begin, end] — also returns a
non-null iterator instead of nullptr. -/
theorem c2_invalid_position_not_rejected :
    vC2.size = 2 ∧ front vC2 2 = [some 10, some 20] ∧
    (erase vC2 (2 : Int)).isSome = true ∧
    ((erase vC2 (2 : Int)).map fun r => (r.1.size, front r.1 2, r.2)) =
      some (1, [some 10, none], 2) ∧
    (emplace true vC2 (3 : Int) 99).isSome = true := by
  decide

/-- Concrete vector [10, 20] with size = capacity = 2: the failing input
for C3. -/
def vC3 : Vector Nat :=
  ⟨⟨2, fun i => if i = 0 then some 10 else if i = 1 then some 20 else none⟩, 2⟩

/-- C3 is false on the code and the code contradicts the spec's stated
intent: in the reallocating path of Emplace, the copying branch (taken for
copy-constructible element types without a no-throw move constructor)
transfers only `new_pos - 1` prefix elements where the move branch and the
spec's algorithm transfer `new_pos`.  Inserting 30 at position 2 (= end)
of [10, 20] at capacity yields size 3 but storage [10, <uninitialized>,
30]: element 20 is dropped and slot 1 is left unconstructed instead of the
claimed [10, 20, 30]. -/
theorem c3_emplace_copy_branch_drops_element :
    WF vC3 ∧
    ((emplace false vC3 (2 : Int) 30).map fun r =>
        (r.1.size, r.1.data.cap, front r.1 4, r.2)) =
      some (3, 4, [some 10, none, some 30, none], 2) := by
  decide

/-- Concrete vector [10, 20] with size = capacity = 2: the failing input
for C4. -/
def vC4 : Vector Nat :=
  ⟨⟨2, fun i => if i = 0 then some 10 else if i = 1 then some 20 else none⟩, 2⟩

/-- C4 is false on the code (through the same `new_pos - 1` slip as C3):
starting from the well-formed vector [10, 20] at capacity, the valid call
`Emplace(begin() + 1, 99)` in the copying branch produces storage
[<uninitialized>, 99, 20] with count 3 — slot 0 lies below the count but
holds no live element — so the claimed invariant "slots [0, count) hold
live constructed elements" is not preserved by every public operation. -/
theorem c4_invariant_broken_by_copy_branch :
    WF vC4 ∧
    ((emplace false vC4 (1 : Int) 99).map fun r =>
        (front r.1 4, decide (WF r.1))) =
      some ([none, some 99, some 20, none], false) := by
  decide

/-- Witness inputs for C5: [1, 2] at full capacity 2 and [5] with spare
capacity 3. -/
def vW5 : Vector Nat :=
  ⟨⟨2, fun i => if i = 0 then some 1 else if i = 1 then some 2 else none⟩, 2⟩

def wW5 : Vector Nat := ⟨⟨3, fun i => if i = 0 then some 5 else none⟩, 1⟩

theorem c5_growth_policy_witness :
    (vW5.size = vW5.data.cap ∧ wW5.size ≤ wW5.data.cap ∧
      wW5.data.cap < 7 ∧ wW5.size < 9 ∧ wW5.data.cap < 9 ∧
      (0 : Int) ≤ 1 ∧ (1 : Int) ≤ (vW5.size : Int) ∧
      (0 : Int) ≤ 0 ∧ (0 : Int) ≤ (wW5.size : Int)) ∧
    ((pushBack vW5 3).data.cap = max 1 (2 * vW5.data.cap) ∧
      (emplace true vW5 (1 : Int) 3).map (fun r => r.1.data.cap) =
        some (max 1 (2 * vW5.data.cap)) ∧
      (reserve wW5 7).data.cap = 7 ∧
      (resize 0 wW5 9).data.cap = max (2 * wW5.data.cap) 9 ∧
      (pushBack wW5 4).size ≤ (pushBack wW5 4).data.cap ∧
      okCapGeSize (emplace true wW5 (0 : Int) 4) ∧
      (reserve wW5 7).size ≤ (reserve wW5 7).data.cap ∧
      (resize 0 wW5 9).size ≤ (resize 0 wW5 9).data.cap) :=
  ⟨⟨by decide, by decide, by decide, by decide, by decide, by decide,
    by decide, by decide, by decide⟩,
    c5_growth_policy vW5 wW5 3 4 0 7 9 1 0 true (by decide) (by decide)
      (by decide) (by decide) (by decide) (by decide) (by decide)
      (by decide) (by decide)⟩

/-- Witness input for C8: [10, 20] at capacity 2, erase and re-insert at
position 0. -/
def vW8 : Vector Nat :=
  ⟨⟨2, fun i => if i = 0 then some 10 else if i = 1 then some 20 else none⟩, 2⟩

theorem c8_erase_insert_roundtrip_witness :
    (WF vW8 ∧ 0 < vW8.size ∧ vW8.data.mem 0 = some 10) ∧
    ((erase vW8 ((0 : Nat) : Int)).bind fun r =>
        emplace true r.1 ((0 : Nat) : Int) 10).map
        (fun r => (r.1.size, r.1.data.cap, front r.1 vW8.data.cap)) =
      some (vW8.size, vW8.data.cap, front vW8 vW8.data.cap) :=
  ⟨⟨by decide, by decide, by decide⟩,
    c8_erase_insert_roundtrip true vW8 0 10 (by decide) (by decide)
      (by decide)⟩

/-- Witness input for C9: [10, 20] at capacity 2, inserting the reference
to element 1 at position 0. -/
def vW9 : Vector Nat :=
  ⟨⟨2, fun i => if i = 0 then some 10 else if i = 1 then some 20 else none⟩, 2⟩

theorem c9_self_referential_insert_witness :
    (WF vW9 ∧ 1 < vW9.size ∧ (0 : Int) ≤ 0 ∧ (0 : Int) ≤ (vW9.size : Int)) ∧
    (emplaceSelf true vW9 0 1).map (fun r => r.1.data.mem r.2) =
      some (vW9.data.mem 1) :=
  ⟨⟨by decide, by decide, by decide, by decide⟩,
    c9_self_referential_insert true vW9 0 1 (by decide) (by decide)
      (by decide) (by decide)⟩

end AdvancedVector
